import Mathlib

/-!
Shallow embedding of the minibroker service-broker core
(`pkg/minibroker/minibroker.go`) and proofs about its catalog
aggregation, provisioning, binding, deprovisioning and operation
polling logic.

Pure string manipulation (the plan-ID slug encoding, its decoding in
`Provision`), the semantic-version selection in `ListServices`, the tag
intersection, and the parameter merge in `Bind` are translated directly
from the Go source.  Stateful operations are modelled by explicit state
passing over a `ClusterState` record holding the instance config maps,
the labeled services and secrets, and traces of helm installs and
release deletions; the external collaborators (chart repository,
tiller, k8s transport) are oracles supplied through an `Env` record.
-/

namespace Minibroker

/-! ### Character-level string operations

Go's `strings.ToLower`, the `[^a-z0-9]` regexp replacement and
`strings.Replace` are modelled on `List Char` (ASCII range, which is
the only range exercised by chart names, app versions and plan IDs). -/

/-- Character test for the regexp class `[a-z0-9]` used by the plan-ID
cleaner in `ListServices`. -/
def isLowerAlnum (c : Char) : Bool :=
  (97 ≤ c.toNat && c.toNat ≤ 122) || (48 ≤ c.toNat && c.toNat ≤ 57)

/-- ASCII decimal digit test, used by the semver parser model. -/
def isDigitChar (c : Char) : Bool :=
  48 ≤ c.toNat && c.toNat ≤ 57

/-- Models Go `strings.ToLower` on one ASCII character. -/
def goToLowerChar (c : Char) : Char :=
  if 65 ≤ c.toNat ∧ c.toNat ≤ 90 then Char.ofNat (c.toNat + 32) else c

/-- Models Go `strings.ToLower` (ASCII range). -/
def goToLower (s : List Char) : List Char :=
  s.map goToLowerChar

/-- Models `cleaner.ReplaceAllString(s, "-")` for the regexp
`[^a-z0-9]` on one character. -/
def slugChar (c : Char) : Char :=
  if isLowerAlnum c then c else '-'

/-- Models `regexp.MustCompile("[^a-z0-9]").ReplaceAllString(s, "-")`. -/
def slug (s : List Char) : List Char :=
  s.map slugChar

/-- Models `strings.Replace(s, old, new, 1)`: replaces the first
occurrence of `old` in `s` by `new`. -/
def replaceFirst (old new : List Char) : List Char → List Char
  | [] => if old.isPrefixOf ([] : List Char) then new else []
  | c :: rest =>
    if old.isPrefixOf (c :: rest) then new ++ (c :: rest).drop old.length
    else c :: replaceFirst old new rest

/-- Models `strings.Replace(s, "-", ".", -1)` (all occurrences of the
one-character pattern). -/
def dashToDot (c : Char) : Char :=
  if c = '-' then '.' else c

/-- Plan ID built by `ListServices`:
`cleaner.ReplaceAllString(strings.ToLower(chart ++ "@" ++ appVersion), "-")`. -/
def planIDFor (chart appVersion : String) : String :=
  ⟨slug (goToLower (chart ++ "@" ++ appVersion).data)⟩

/-- Plan name built by `ListServices`:
`cleaner.ReplaceAllString(appVersion, "-")` (note: no lower-casing). -/
def planNameFor (appVersion : String) : String :=
  ⟨slug appVersion.data⟩

/-- Chart version recovered from a plan ID by `Provision`:
`strings.Replace(strings.Replace(planID, serviceID+"-", "", 1), "-", ".", -1)`. -/
def decodeChartVersion (serviceID planID : String) : String :=
  ⟨(replaceFirst (serviceID.data ++ ['-']) [] planID.data).map dashToDot⟩

/-! ### Semantic version model

`ListServices` relies on the external `Masterminds/semver` library
(`semver.NewVersion`, `Version.GreaterThan`).  The library is an
external collaborator of the repository; it is modelled here: parsing
accepts an optional `v`, one to three dot-separated numeric fields,
an optional dash-introduced prerelease and an optional plus-introduced
metadata part, and comparison orders versions lexicographically by
major, minor, patch and then by the prerelease identifiers (numeric
identifiers numerically and below alphanumeric ones, absence of a
prerelease above any prerelease, metadata ignored). -/

/-- Prerelease identifier: numeric identifiers order below
alphanumeric ones. -/
abbrev PreId := Lex (Nat ⊕ List Char)

/-- Comparison key of a semantic version: lexicographic on major,
minor, patch, then prerelease (`⊤` when there is no prerelease). -/
abbrev SemVerKey := Lex (Nat × Lex (Nat × Lex (Nat × WithTop (List PreId))))

/-- Parsed semantic version. -/
structure SemVer where
  major : Nat
  minor : Nat
  patch : Nat
  pre : List PreId
  deriving DecidableEq

/-- Comparison key of a parsed version. -/
def SemVer.key (v : SemVer) : SemVerKey :=
  toLex (v.major, toLex (v.minor, toLex (v.patch,
    if v.pre = [] then (⊤ : WithTop (List PreId)) else (v.pre : WithTop (List PreId)))))

/-- Models `Version.GreaterThan` of the semver library. -/
def semverGT (a b : SemVer) : Bool :=
  decide (b.key < a.key)

/-- Identifier characters allowed in prerelease and metadata parts:
`[0-9A-Za-z-]`. -/
def isIdentChar (c : Char) : Bool :=
  isDigitChar c || (65 ≤ c.toNat && c.toNat ≤ 90) || (97 ≤ c.toNat && c.toNat ≤ 122)
    || c.toNat = 45

/-- Numeric value of a digit string. -/
def digitsToNat (s : List Char) : Nat :=
  s.foldl (fun n c => 10 * n + (c.toNat - 48)) 0

/-- Splits a character list at every occurrence of `sep`
(like `strings.Split`). -/
def splitOnChar (sep : Char) : List Char → List (List Char)
  | [] => [[]]
  | c :: rest =>
    let r := splitOnChar sep rest
    if c = sep then [] :: r
    else
      match r with
      | [] => [[c]]
      | h :: t => (c :: h) :: t

/-- Splits a character list at the first occurrence of `sep`, if any. -/
def breakOnChar (sep : Char) : List Char → List Char × Option (List Char)
  | [] => ([], none)
  | c :: rest =>
    if c = sep then ([], some rest)
    else
      match breakOnChar sep rest with
      | (a, b) => (c :: a, b)

/-- Parses one numeric version field. -/
def parseNumPart (s : List Char) : Option Nat :=
  if s ≠ [] && s.all isDigitChar then some (digitsToNat s) else none

/-- Classifies one prerelease identifier: all-digit identifiers are
numeric, the rest alphanumeric. -/
def classifyPreId (s : List Char) : PreId :=
  if s ≠ [] && s.all isDigitChar then toLex (Sum.inl (digitsToNat s))
  else toLex (Sum.inr s)

/-- Parses a dot-separated series of nonempty `[0-9A-Za-z-]`
identifiers (prerelease or metadata part). -/
def parseIdentSeries (s : List Char) : Option (List PreId) :=
  let parts := splitOnChar '.' s
  if parts.all (fun p => p ≠ [] && p.all isIdentChar) then some (parts.map classifyPreId)
  else none

/-- Models `semver.NewVersion`: `none` when the string is not a valid
semantic version. -/
def semverParse (s : String) : Option SemVer :=
  let cs := match s.data with
    | 'v' :: rest => rest
    | cs => cs
  let (verPre, meta) := breakOnChar '+' cs
  let metaOk := match meta with
    | none => true
    | some m => (parseIdentSeries m).isSome
  if !metaOk then none
  else
    let (core, preS) := breakOnChar '-' verPre
    let preIds : Option (List PreId) := match preS with
      | none => some []
      | some p => parseIdentSeries p
    match preIds with
    | none => none
    | some pre =>
      match (splitOnChar '.' core).mapM parseNumPart with
      | some [a] => some ⟨a, 0, 0, pre⟩
      | some [a, b] => some ⟨a, b, 0, pre⟩
      | some [a, b, c] => some ⟨a, b, c, pre⟩
      | _ => none

/-! ### Catalog builder -/

/-- Package version descriptor, from `repo.ChartVersion` of the helm
repository client (`Metadata.Name/Version/AppVersion/Description/Keywords`). -/
structure ChartVersion where
  name : String
  version : String
  appVersion : String
  description : String
  keywords : List String
  deriving DecidableEq

/-- Emitted `osb.Plan`. -/
structure Plan where
  id : String
  name : String
  description : String
  free : Option Bool
  deriving DecidableEq

/-- Emitted `osb.Service`. -/
structure Service where
  id : String
  name : String
  description : String
  bindable : Bool
  tags : List String
  plans : List Plan
  deriving DecidableEq

/-- Translation of `hasTag` (minibroker.go lines 116-124). -/
def hasTag (tag : String) : List String → Bool
  | [] => false
  | listTag :: rest => if listTag = tag then true else hasTag tag rest

/-- Translation of `getTagIntersection` (minibroker.go lines 126-162):
keywords of the first descriptor kept when present in every other
descriptor's keywords; a single descriptor passes through; no
descriptors yield the empty list. -/
def getTagIntersection (chartVersions : List ChartVersion) : List String :=
  let tagList := chartVersions.map (fun cv => cv.keywords)
  match tagList with
  | [] => []
  | first :: rest =>
    match rest with
    | [] => first
    | _ :: _ => first.filter (fun searchTag => rest.all (fun other => hasTag searchTag other))

/-! ### Association lists modelling Go maps

Go maps have unique keys; maps built below only ever grow through
`alSet`, which preserves key uniqueness. -/

/-- Lookup in an association list (Go `m[k]` presence check). -/
def alGet {α : Type} (m : List (String × α)) (k : String) : Option α :=
  match m with
  | [] => none
  | kv :: rest => if kv.1 = k then some kv.2 else alGet rest k

/-- Models Go map assignment `m[k] = v`. -/
def alSet {α : Type} (m : List (String × α)) (k : String) (v : α) : List (String × α) :=
  match m with
  | [] => [(k, v)]
  | kv :: rest => if kv.1 = k then (k, v) :: rest else kv :: alSet rest k v

/-- Models Go `delete(m, k)`. -/
def alDel {α : Type} (m : List (String × α)) (k : String) : List (String × α) :=
  m.filter (fun kv => kv.1 ≠ k)

/-! ### Deduplication by app version (`ListServices` lines 228-252) -/

/-- One step of the `appVersions` accumulation loop in `ListServices`:
descriptors with an empty `AppVersion` or a version that does not parse
are skipped, otherwise the descriptor replaces the stored one for its
`AppVersion` only when its version is strictly greater.  The inner
`none` branch on the stored version is unreachable because only parsed
versions are ever stored (Go ignores that error). -/
def dedupStep (acc : List (String × ChartVersion)) (chartVersion : ChartVersion) :
    List (String × ChartVersion) :=
  if chartVersion.appVersion = "" then acc
  else
    match semverParse chartVersion.version with
    | none => acc
    | some curV =>
      match alGet acc chartVersion.appVersion with
      | none => alSet acc chartVersion.appVersion chartVersion
      | some currentMax =>
        match semverParse currentMax.version with
        | none => acc
        | some maxV =>
          if semverGT curV maxV then alSet acc chartVersion.appVersion chartVersion
          else acc

/-- The `appVersions` map at the end of the loop in `ListServices`. -/
def dedupByAppVersion (chartVersions : List ChartVersion) : List (String × ChartVersion) :=
  chartVersions.foldl dedupStep []

/-- Plan built for one retained descriptor (`ListServices` lines 254-266). -/
def mkPlan (chart : String) (chartVersion : ChartVersion) : Plan :=
  { id := planIDFor chart chartVersion.appVersion
    name := planNameFor chartVersion.appVersion
    description := chartVersion.description
    free := some true }

/-- Service built for one chart (`ListServices` lines 220-266). -/
def buildService (chart : String) (chartVersions : List ChartVersion) : Service :=
  { id := chart
    name := chart
    description := "Helm Chart for " ++ chart
    bindable := true
    tags := getTagIntersection chartVersions
    plans := (dedupByAppVersion chartVersions).map (fun p => mkPlan chart p.2) }

/-- Translation of `ListServices` (lines 204-276).  The chart listing
returned by the external repository client is the input; charts without
a provider are skipped when `serviceCatalogEnabledOnly` is set, and a
service is emitted only when it has at least one plan. -/
def ListServices (providerNames : List String) (serviceCatalogEnabledOnly : Bool)
    (charts : List (String × List ChartVersion)) : List Service :=
  charts.foldl
    (fun services e =>
      if !(providerNames.contains e.1) && serviceCatalogEnabledOnly then services
      else if (buildService e.1 e.2).plans = [] then services
      else services ++ [buildService e.1 e.2])
    []

/-- Invariant of the `appVersions` accumulation loop: unique keys, every
stored entry comes from the processed descriptors, carries its key as
app version, has a nonempty app version and a valid version maximal
among the processed descriptors of that app version; and every
processed valid descriptor with nonempty app version has an entry. -/
def DedupInv (processed : List ChartVersion) (acc : List (String × ChartVersion)) : Prop :=
  (acc.map Prod.fst).Nodup ∧
  (∀ av cv, (av, cv) ∈ acc → cv ∈ processed ∧ cv.appVersion = av ∧ av ≠ "" ∧
    ∃ v, semverParse cv.version = some v ∧
      ∀ cv' ∈ processed, cv'.appVersion = av →
        ∀ v', semverParse cv'.version = some v' → v'.key ≤ v.key) ∧
  (∀ cv ∈ processed, cv.appVersion ≠ "" → (∃ v, semverParse cv.version = some v) →
    ∃ cv2, (cv.appVersion, cv2) ∈ acc)

/-! ### Broker state model

The instance record store is a config map per instance ID in the
broker's own namespace; backing resources are labeled services and
secrets.  `encoding/json` round-trips the provision parameters through
the `provision-params` config map entry; since that library is an
external collaborator and `Unmarshal` inverts `Marshal` on these maps,
the parameter map is modelled structurally as its own record field. -/

/-- Opaque JSON-like parameter value (`interface\x7b\x7d` values of the Go
parameter maps). -/
inductive ParamValue where
  | str (s : String)
  | num (n : Int)
  | boolean (b : Bool)
  | null
  deriving DecidableEq

/-- Parameter map (`map[string]interface\x7b\x7d`). -/
abbrev Params := List (String × ParamValue)

/-- String constants from minibroker.go lines 32-61. -/
def InstanceLabel : String := "minibroker.instance"

/-- Config map key for the service ID. -/
def ServiceKey : String := "service-id"

/-- Config map key for the plan ID. -/
def PlanKey : String := "plan-id"

/-- Config map key for the release namespace. -/
def ReleaseNamespaceKey : String := "release-namespace"

/-- Heritage label attached by tiller. -/
def HeritageLabel : String := "heritage"

/-- Release label attached by tiller; also the config map key under
which `updateProvisioningState` stores the release name. -/
def ReleaseLabel : String := "release"

/-- Heritage label value attached by tiller. -/
def TillerHeritage : String := "Tiller"

/-- Config map key for the last operation name. -/
def OperationNameKey : String := "last-operation-name"

/-- Config map key for the last operation state. -/
def OperationStateKey : String := "last-operation-state"

/-- Config map key for the last operation description. -/
def OperationDescriptionKey : String := "last-operation-description"

/-- Fixed machine-readable concurrency error message. -/
def ConcurrencyErrorMessage : String := "ConcurrencyError"

/-- Fixed concurrency error description. -/
def ConcurrencyErrorDescription : String := "Concurrent modification not supported"

/-- Operation name marker for provision operations. -/
def OperationPrefixProvision : String := "provision-"

/-- Operation name marker for deprovision operations. -/
def OperationPrefixDeprovision : String := "deprovision-"

/-- Errors surfaced by the broker core: either an
`osb.HTTPStatusCodeError` with status code, optional machine-readable
message and optional description, or a wrapped upstream error. -/
inductive OSBError where
  | http (statusCode : Nat) (errorMessage : Option String) (description : Option String)
  | wrapped (msg : String)
  deriving DecidableEq

/-- Response of `LastOperationState` (`osb.LastOperationResponse`). -/
structure LastOperationResponse where
  state : String
  description : Option String
  deriving DecidableEq

/-- Instance record: one config map per instance ID.  `labels` and
`data` are the config map's string maps; `provisionParams` models the
JSON-serialized `provision-params` data entry structurally. -/
structure InstanceConfig where
  labels : List (String × String)
  data : List (String × String)
  provisionParams : Params
  deriving DecidableEq

/-- Reads a config map data entry the way Go map indexing does: absent
keys yield the zero value `""`. -/
def InstanceConfig.dataGet (c : InstanceConfig) (k : String) : String :=
  (alGet c.data k).getD ""

/-- Cluster service object (name, namespace, labels). -/
structure ServiceRes where
  name : String
  ns : String
  labels : List (String × String)
  deriving DecidableEq

/-- Cluster secret object; `data` values are the secret's byte values
decoded as text, as `Bind` does with `string(value)`. -/
structure SecretRes where
  name : String
  ns : String
  labels : List (String × String)
  data : List (String × String)
  deriving DecidableEq

/-- Cluster-visible state touched by the broker: instance config maps
(keyed by instance ID, all in the broker namespace), services and
secrets, plus traces of the helm installs and release deletions
requested from the external installer. -/
structure ClusterState where
  configMaps : List (String × InstanceConfig)
  services : List ServiceRes
  secrets : List SecretRes
  installs : List (String × String)
  deletedReleases : List String
  deriving DecidableEq

/-- Modelled from the spec: a Provider is a stateless per-service-type
capability that shapes discovered services, merged parameters and
flattened secret data into final bind credentials (spec section 3;
the provider implementations live outside the embedded source file). -/
def ProviderFn : Type :=
  List ServiceRes → Params → Params → Except String Params

/-- Broker client: own namespace, registered providers, catalog
restriction flag. -/
structure Client where
  ns : String
  providers : List (String × ProviderFn)
  serviceCatalogEnabledOnly : Bool

/-- Result of a successful helm install: the release and the resources
it created in the cluster. -/
structure InstallResult where
  releaseName : String
  releaseNs : String
  newServices : List ServiceRes
  newSecrets : List SecretRes

/-- External collaborators: chart repository fetch, tiller
connectivity, release install and delete, and the random operation-name
suffix (`rand.Int31` formatted in hex). -/
structure Env where
  getChart : String → String → Except String Unit
  tiller : Except String Unit
  install : String → String → String → Params → Except String InstallResult
  deleteRelease : String → Except String Unit
  opSuffix : String

/-- Models `generateOperationName` (line 164-166). -/
def generateOperationName (pfx : String) (env : Env) : String :=
  pfx ++ env.opSuffix

/-- Models `updateConfigMap` (lines 177-202): reads the config map,
sets each `some` entry and deletes each `none` entry, then writes it
back.  On error (record absent) no state change happens, so the caller
keeps its old state. -/
def updateConfigMap (st : ClusterState) (instanceID : String)
    (data : List (String × Option String)) : Except String ClusterState :=
  match alGet st.configMaps instanceID with
  | none => .error ("Failed to get config for instance " ++ instanceID)
  | some cfg =>
    let newData := data.foldl
      (fun d kv =>
        match kv.2 with
        | none => alDel d kv.1
        | some v => alSet d kv.1 v)
      cfg.data
    .ok { st with configMaps := alSet st.configMaps instanceID { cfg with data := newData } }

/-- Models `installRelease` (lines 381-415): fetch the chart, connect
to tiller, install.  On success the created resources appear in the
cluster and the install is traced. -/
def installRelease (env : Env) (st : ClusterState)
    (chartName chartVersion ns : String) (provisionParams : Params) :
    Except String InstallResult × ClusterState :=
  match env.getChart chartName chartVersion with
  | .error e => (.error e, st)
  | .ok _ =>
    match env.tiller with
    | .error e => (.error e, st)
    | .ok _ =>
      match env.install chartName chartVersion ns provisionParams with
      | .error e => (.error e, st)
      | .ok r =>
        (.ok r, { st with
          services := st.services ++ r.newServices,
          secrets := st.secrets ++ r.newSecrets,
          installs := st.installs ++ [(chartName, chartVersion)] })

/-- Label-selector test of `filterByRelease` (lines 425-430):
`heritage=Tiller, release=releaseName`. -/
def matchesRelease (releaseName : String) (lbls : List (String × String)) : Bool :=
  alGet lbls HeritageLabel == some TillerHeritage && alGet lbls ReleaseLabel == some releaseName

/-- Models `updateProvisioningState` (lines 417-461): patch the
instance label onto every service and secret of the release, then
record release name and namespace in the config map.  The label patches
persist even when the final config map update fails. -/
def updateProvisioningState (st : ClusterState)
    (releaseName instanceID ns : String) : Except String Unit × ClusterState :=
  let st1 : ClusterState := { st with
    services := st.services.map
      (fun s =>
        if s.ns = ns ∧ matchesRelease releaseName s.labels then
          { s with labels := alSet s.labels InstanceLabel instanceID }
        else s),
    secrets := st.secrets.map
      (fun s =>
        if s.ns = ns ∧ matchesRelease releaseName s.labels then
          { s with labels := alSet s.labels InstanceLabel instanceID }
        else s) }
  match updateConfigMap st1 instanceID
      [(ReleaseLabel, some releaseName), (ReleaseNamespaceKey, some ns)] with
  | .error e => (.error e, st1)
  | .ok st2 => (.ok (), st2)

/-- Models `Provision` (lines 280-379) up to the point where control
returns to the caller.  The chart name is the service ID and the chart
version is decoded from the plan ID; the instance config map is created
atomically (`Create` fails with 409/ConcurrencyError when the record
already exists, before any install); the sync path then installs the
release and records its name and namespace, while the async path writes
the in-progress operation marker and returns the operation key, the
spawned goroutine being modelled separately as `provisionTask`. -/
def Provision (c : Client) (env : Env) (st : ClusterState)
    (instanceID serviceID planID ns : String) (acceptsIncomplete : Bool)
    (provisionParams : Params) : Except OSBError String × ClusterState :=
  let chartName := serviceID
  let chartVersion := decodeChartVersion serviceID planID
  match alGet st.configMaps instanceID with
  | some _ =>
    (.error (.http 409 (some ConcurrencyErrorMessage) (some ConcurrencyErrorDescription)), st)
  | none =>
    let cfg : InstanceConfig := {
      labels := [(ServiceKey, serviceID), (PlanKey, planID)],
      data := [(ServiceKey, serviceID), (PlanKey, planID)],
      provisionParams := provisionParams }
    let st1 : ClusterState := { st with configMaps := st.configMaps ++ [(instanceID, cfg)] }
    if acceptsIncomplete then
      let operationKey := generateOperationName OperationPrefixProvision env
      match updateConfigMap st1 instanceID
          [(OperationStateKey, some "in progress"),
           (OperationNameKey, some operationKey),
           (OperationDescriptionKey,
            some ("provisioning service instance \"" ++ instanceID ++ "\""))] with
      | .error e =>
        (.error (.wrapped ("Failed to set operation key when provisioning instance "
          ++ instanceID ++ ": " ++ e)), st1)
      | .ok st2 => (.ok operationKey, st2)
    else
      match installRelease env st1 chartName chartVersion ns provisionParams with
      | (.error e, st2) => (.error (.wrapped e), st2)
      | (.ok resp, st2) =>
        match updateProvisioningState st2 resp.releaseName instanceID resp.releaseNs with
        | (.error e, st3) =>
          (.error (.wrapped ("could not update the instance configmap for \""
            ++ instanceID ++ "\": " ++ e)), st3)
        | (.ok _, st3) => (.ok "", st3)

/-- Models the goroutine spawned by the async `Provision` path (lines
331-364): install, associate and finalize, converting any failure into
a terminal failed operation state. -/
def provisionTask (env : Env) (st : ClusterState)
    (instanceID chartName chartVersion ns : String) (provisionParams : Params) :
    ClusterState :=
  let fail := fun (s : ClusterState) =>
    match updateConfigMap s instanceID
        [(OperationStateKey, some "failed"),
         (OperationDescriptionKey,
          some ("service instance \"" ++ instanceID ++ "\" failed to provision"))] with
    | .error _ => s
    | .ok s2 => s2
  match installRelease env st chartName chartVersion ns provisionParams with
  | (.error _, st1) => fail st1
  | (.ok resp, st1) =>
    match updateProvisioningState st1 resp.releaseName instanceID resp.releaseNs with
    | (.error _, st2) => fail st2
    | (.ok _, st2) =>
      match updateConfigMap st2 instanceID
          [(OperationStateKey, some "succeeded"),
           (OperationDescriptionKey,
            some ("service instance \"" ++ instanceID ++ "\" provisioned"))] with
      | .error _ => st2
      | .ok st3 => st3

/-- Parameter merge of `Bind` (lines 549-556): provision parameters
first, then bind parameters, into a fresh Go map. -/
def mergeParams (provisionParams bindParams : Params) : Params :=
  let params := provisionParams.foldl (fun a kv => alSet a kv.1 kv.2) []
  bindParams.foldl (fun a kv => alSet a kv.1 kv.2) params

/-- Services carrying the instance label in a namespace
(`filterByInstance` list, lines 558-567). -/
def labeledServices (st : ClusterState) (ns instanceID : String) : List ServiceRes :=
  st.services.filter (fun s => s.ns == ns && alGet s.labels InstanceLabel == some instanceID)

/-- Secrets carrying the instance label in a namespace
(`filterByInstance` list, lines 572-575). -/
def labeledSecrets (st : ClusterState) (ns instanceID : String) : List SecretRes :=
  st.secrets.filter (fun s => s.ns == ns && alGet s.labels InstanceLabel == some instanceID)

/-- Models `Bind` (lines 528-600): read the instance record (404 with a
message when absent), merge parameters, list labeled services and
secrets in the release namespace (404 when either list is empty),
flatten the secrets' data, and let a registered provider overlay its
credentials. -/
def Bind (c : Client) (st : ClusterState) (instanceID serviceID : String)
    (bindParams : Params) : Except OSBError Params × ClusterState :=
  match alGet st.configMaps instanceID with
  | none =>
    (.error (.http 404
      (some ("could not find configmap " ++ c.ns ++ "/" ++ instanceID)) none), st)
  | some config =>
    let releaseNamespace := config.dataGet ReleaseNamespaceKey
    let provisionParams := config.provisionParams
    let params := mergeParams provisionParams bindParams
    let services := labeledServices st releaseNamespace instanceID
    if services = [] then (.error (.http 404 none none), st)
    else
      let secrets := labeledSecrets st releaseNamespace instanceID
      if secrets = [] then (.error (.http 404 none none), st)
      else
        let data := secrets.foldl
          (fun d sec => sec.data.foldl (fun d2 kv => alSet d2 kv.1 (ParamValue.str kv.2)) d)
          []
        match alGet c.providers serviceID with
        | none => (.ok data, st)
        | some provider =>
          match provider services params data with
          | .error e =>
            (.error (.wrapped ("unable to bind instance " ++ instanceID ++ ": " ++ e)), st)
          | .ok creds =>
            (.ok (creds.foldl (fun d kv => alSet d kv.1 kv.2) data), st)

/-- Models `deprovisionSynchronously` (lines 647-673): connect to
tiller, purge the release, then delete the instance config map.  The
release deletion persists even when the config map delete fails. -/
def deprovisionSynchronously (env : Env) (st : ClusterState)
    (instanceID release : String) : Except String Unit × ClusterState :=
  match env.tiller with
  | .error e => (.error e, st)
  | .ok _ =>
    match env.deleteRelease release with
    | .error e => (.error ("could not delete release " ++ release ++ ": " ++ e), st)
    | .ok _ =>
      let st1 : ClusterState := { st with deletedReleases := st.deletedReleases ++ [release] }
      match alGet st1.configMaps instanceID with
      | none =>
        (.error ("could not delete configmap for " ++ instanceID), st1)
      | some _ =>
        (.ok (), { st1 with configMaps := alDel st1.configMaps instanceID })

/-- Models `Deprovision` (lines 602-645): a missing instance record is
the Gone (410) condition; otherwise the sync path deletes the release
and record inline, and the async path writes the in-progress operation
marker and returns the operation key, the goroutine being modelled
separately as `deprovisionTask`. -/
def Deprovision (c : Client) (env : Env) (st : ClusterState)
    (instanceID : String) (acceptsIncomplete : Bool) :
    Except OSBError String × ClusterState :=
  match alGet st.configMaps instanceID with
  | none => (.error (.http 410 none none), st)
  | some config =>
    let release := config.dataGet ReleaseLabel
    if !acceptsIncomplete then
      match deprovisionSynchronously env st instanceID release with
      | (.error e, st1) => (.error (.wrapped e), st1)
      | (.ok _, st1) => (.ok "", st1)
    else
      let operationKey := generateOperationName OperationPrefixDeprovision env
      match updateConfigMap st instanceID
          [(OperationStateKey, some "in progress"),
           (OperationNameKey, some operationKey),
           (OperationDescriptionKey,
            some ("deprovisioning service instance \"" ++ instanceID ++ "\""))] with
      | .error e =>
        (.error (.wrapped ("Failed to set operation key when deprovisioning instance "
          ++ instanceID ++ ": " ++ e)), st)
      | .ok st2 => (.ok operationKey, st2)

/-- Models the goroutine spawned by the async `Deprovision` path
(lines 629-643): on failure the still-existing record is marked
failed; on success no record remains to update. -/
def deprovisionTask (env : Env) (st : ClusterState)
    (instanceID release : String) : ClusterState :=
  match deprovisionSynchronously env st instanceID release with
  | (.ok _, st1) => st1
  | (.error _, st1) =>
    match updateConfigMap st1 instanceID
        [(OperationStateKey, some "failed"),
         (OperationDescriptionKey,
          some ("service instance \"" ++ instanceID ++ "\" failed to deprovision"))] with
    | .error _ => st1
    | .ok st2 => st2

/-- Models `LastOperationState` (lines 676-703): Gone (410) when the
record is absent; 400/ConcurrencyError when an operation key is
supplied and differs from the stored one; otherwise the stored state
and description. -/
def LastOperationState (c : Client) (st : ClusterState)
    (instanceID : String) (operationKey : Option String) :
    Except OSBError LastOperationResponse :=
  match alGet st.configMaps instanceID with
  | none => .error (.http 410 none none)
  | some config =>
    match operationKey with
    | some key =>
      if config.dataGet OperationNameKey ≠ key then
        .error (.http 400 (some ConcurrencyErrorMessage) (some ConcurrencyErrorDescription))
      else
        .ok { state := config.dataGet OperationStateKey,
              description := some (config.dataGet OperationDescriptionKey) }
    | none =>
      .ok { state := config.dataGet OperationStateKey,
            description := some (config.dataGet OperationDescriptionKey) }

/-! ### Theorems -/

/-! ### Lemmas about the plan-ID round trip -/

theorem goToLowerChar_of_not_upper {c : Char} (h : ¬ (65 ≤ c.toNat ∧ c.toNat ≤ 90)) :
    goToLowerChar c = c := by
  simp [goToLowerChar, h]

theorem goToLowerChar_of_lowerAlnum {c : Char} (h : isLowerAlnum c = true) :
    goToLowerChar c = c := by
  apply goToLowerChar_of_not_upper
  simp only [isLowerAlnum, Bool.or_eq_true, Bool.and_eq_true, decide_eq_true_eq] at h
  omega

theorem slugChar_of_lowerAlnum {c : Char} (h : isLowerAlnum c = true) :
    slugChar c = c := by
  simp [slugChar, h]

theorem isLowerAlnum_of_digit {c : Char} (h : isDigitChar c = true) :
    isLowerAlnum c = true := by
  simp only [isDigitChar, Bool.and_eq_true, decide_eq_true_eq] at h
  simp only [isLowerAlnum, Bool.or_eq_true, Bool.and_eq_true, decide_eq_true_eq]
  omega

theorem replaceFirst_append (old new t : List Char) :
    replaceFirst old new (old ++ t) = new ++ t := by
  match h : old ++ t with
  | [] =>
    have ho : old = [] := by cases old <;> simp_all
    have ht : t = [] := by cases old <;> cases t <;> simp_all
    subst ho; subst ht
    simp [replaceFirst, List.isPrefixOf]
  | c :: rest =>
    rw [replaceFirst]
    have hpre : old.isPrefixOf (c :: rest) = true := by
      rw [← h]
      exact List.isPrefixOf_iff_prefix.mpr ⟨t, rfl⟩
    rw [if_pos hpre, ← h, List.drop_left]

theorem dashToDot_slug_version {c : Char} (h : isDigitChar c = true ∨ c = '.') :
    dashToDot (slugChar (goToLowerChar c)) = c := by
  rcases h with h | h
  · have h1 : goToLowerChar c = c := by
      apply goToLowerChar_of_not_upper
      simp only [isDigitChar, Bool.and_eq_true, decide_eq_true_eq] at h
      omega
    have h2 : slugChar c = c := slugChar_of_lowerAlnum (isLowerAlnum_of_digit h)
    have h3 : c ≠ '-' := by
      intro hc
      subst hc
      simp [isDigitChar] at h
    rw [h1, h2, dashToDot, if_neg h3]
  · subst h; decide

theorem planIDFor_data (name ver : String)
    (hname : ∀ c ∈ name.data, isLowerAlnum c = true) :
    (planIDFor name ver).data =
      name.data ++ '-' :: ver.data.map (fun c => slugChar (goToLowerChar c)) := by
  show slug (goToLower (name ++ "@" ++ ver).data) = _
  have hdata : (name ++ "@" ++ ver).data = name.data ++ '@' :: ver.data := by
    simp [String.data_append]
  rw [hdata]
  simp only [slug, goToLower, List.map_append, List.map_cons, List.map_map]
  have h1 : name.data.map (slugChar ∘ goToLowerChar) = name.data := by
    have h := List.map_congr_left (l := name.data)
      (f := slugChar ∘ goToLowerChar) (g := id) ?_
    · simpa using h
    · intro c hc
      simp only [Function.comp_apply, id_eq]
      rw [goToLowerChar_of_lowerAlnum (hname c hc), slugChar_of_lowerAlnum (hname c hc)]
  have h2 : slugChar (goToLowerChar '@') = '-' := by decide
  rw [h1, h2]
  rfl

/-- C3: `Provision` recovers the chart version from the plan ID by
removing the first occurrence of `serviceID ++ "-"` and turning every
remaining `-` back into `.`; for chart names over `[a-z0-9]` and
versions over digits and `.` this inverts the plan-ID encoding of
`ListServices`, and the encoding is not injective once a version itself
contains `-` (witnessed by `"1.0"` and `"1-0"` colliding). -/
theorem planID_decode_roundtrip :
    (∀ name ver : String, (∀ c ∈ name.data, isLowerAlnum c = true) →
      (∀ c ∈ ver.data, isDigitChar c = true ∨ c = '.') →
      decodeChartVersion name (planIDFor name ver) = ver) ∧
    (planIDFor "pg" "1.0" = planIDFor "pg" "1-0" ∧ ("1.0" : String) ≠ "1-0" ∧
      '-' ∈ "1-0".data) := by
  refine ⟨?_, by decide, by decide, by decide⟩
  intro name ver hname hver
  show String.mk ((replaceFirst (name.data ++ ['-']) [] (planIDFor name ver).data).map dashToDot) = ver
  rw [planIDFor_data name ver hname]
  have hassoc : name.data ++ '-' :: ver.data.map (fun c => slugChar (goToLowerChar c)) =
      (name.data ++ ['-']) ++ ver.data.map (fun c => slugChar (goToLowerChar c)) := by
    simp
  rw [hassoc, replaceFirst_append, List.nil_append, List.map_map]
  have : ver.data.map (dashToDot ∘ fun c => slugChar (goToLowerChar c)) = ver.data := by
    have := List.map_congr_left (l := ver.data)
      (f := dashToDot ∘ fun c => slugChar (goToLowerChar c)) (g := id) ?_
    · simpa using this
    · intro c hc
      simp only [Function.comp_apply, id_eq]
      exact dashToDot_slug_version (hver c hc)
  rw [this]

/-- Witness: decoding the plan ID built for chart `pg`, app version
`9.6`, yields back `9.6`. -/
theorem planID_decode_roundtrip_witness :
    decodeChartVersion "pg" (planIDFor "pg" "9.6") = "9.6" :=
  planID_decode_roundtrip.1 "pg" "9.6" (by decide) (by decide)

theorem alGet_alSet_self {α : Type} (m : List (String × α)) (k : String) (v : α) :
    alGet (alSet m k v) k = some v := by
  induction m with
  | nil => simp [alSet, alGet]
  | cons kv rest ih =>
    by_cases h : kv.1 = k
    · simp [alSet, alGet, h]
    · simp [alSet, alGet, h, ih]

theorem alGet_alSet_ne {α : Type} (m : List (String × α)) (k k' : String) (v : α)
    (h : k ≠ k') : alGet (alSet m k v) k' = alGet m k' := by
  induction m with
  | nil => simp [alSet, alGet, h]
  | cons kv rest ih =>
    by_cases hk : kv.1 = k
    · simp [alSet, alGet, hk, h]
    · by_cases hk' : kv.1 = k'
      · simp [alSet, alGet, hk, hk', Ne.symm h]
      · simp [alSet, alGet, hk, hk', ih]

theorem alGet_eq_none_iff {α : Type} (m : List (String × α)) (k : String) :
    alGet m k = none ↔ k ∉ m.map Prod.fst := by
  induction m with
  | nil => simp [alGet]
  | cons kv rest ih =>
    by_cases h : kv.1 = k
    · simp [alGet, h]
    · simp only [alGet, h, if_false, List.map_cons, List.mem_cons, ih]
      constructor
      · rintro hn (h1 | h2)
        · exact h h1.symm
        · exact hn h2
      · intro hn
        exact fun h2 => hn (Or.inr h2)

theorem alSet_of_not_mem {α : Type} (m : List (String × α)) (k : String) (v : α)
    (h : alGet m k = none) : alSet m k v = m ++ [(k, v)] := by
  induction m with
  | nil => simp [alSet]
  | cons kv rest ih =>
    by_cases hk : kv.1 = k
    · simp [alGet, hk] at h
    · simp only [alGet, hk, if_false] at h
      simp [alSet, hk, ih h]

theorem alGet_append_self {α : Type} (m : List (String × α)) (k : String) (v : α)
    (h : alGet m k = none) : alGet (m ++ [(k, v)]) k = some v := by
  induction m with
  | nil => simp [alGet]
  | cons kv rest ih =>
    by_cases hk : kv.1 = k
    · simp [alGet, hk] at h
    · simp only [alGet, hk, if_false] at h ⊢
      exact ih h

theorem alGet_isSome_of_mem {α : Type} {m : List (String × α)} {k : String} {v : α}
    (h : (k, v) ∈ m) : alGet m k ≠ none := by
  intro hn
  rw [alGet_eq_none_iff] at hn
  exact hn (List.mem_map_of_mem Prod.fst h)

theorem hasTag_iff (tag : String) (l : List String) : hasTag tag l = true ↔ tag ∈ l := by
  induction l with
  | nil => simp [hasTag]
  | cons t rest ih =>
    by_cases h : t = tag
    · subst h; simp [hasTag]
    · simp [hasTag, h, ih, Ne.symm h]

/-- C8: the tags of a catalog entry are the intersection of the keyword
sets across all of the package's descriptors; a single descriptor's
keywords pass through unchanged, zero descriptors yield the empty set,
keyword lists `[a,b]` and `[b,c]` intersect to `[b]`, and a single
`[x,y]` stays `[x,y]`. -/
theorem tags_are_keyword_intersection :
    (getTagIntersection [] = []) ∧
    (∀ cv : ChartVersion, getTagIntersection [cv] = cv.keywords) ∧
    (∀ (cvs : List ChartVersion) (t : String), cvs ≠ [] →
      (t ∈ getTagIntersection cvs ↔ ∀ cv ∈ cvs, t ∈ cv.keywords)) ∧
    getTagIntersection
      [⟨"p", "1", "a", "d", ["a", "b"]⟩, ⟨"p", "2", "a", "d", ["b", "c"]⟩] = ["b"] ∧
    getTagIntersection [⟨"p", "1", "a", "d", ["x", "y"]⟩] = ["x", "y"] := by
  refine ⟨rfl, fun cv => rfl, ?_, by decide, by decide⟩
  intro cvs t hne
  match cvs with
  | [] => exact absurd rfl hne
  | [cv0] => simp [getTagIntersection]
  | cv0 :: cv1 :: rest =>
    show t ∈ cv0.keywords.filter
        (fun searchTag => ((cv1 :: rest).map (fun cv => cv.keywords)).all
          (fun other => hasTag searchTag other)) ↔ _
    rw [List.mem_filter]
    simp only [List.all_eq_true, List.mem_map, hasTag_iff]
    constructor
    · rintro ⟨h0, hrest⟩ cv hcv
      rcases List.mem_cons.mp hcv with h | h
      · subst h; exact h0
      · exact hrest cv.keywords ⟨cv, h, rfl⟩
    · intro h
      refine ⟨h cv0 (List.mem_cons_self _ _), ?_⟩
      rintro other ⟨cv, hcv, rfl⟩
      exact h cv (List.mem_cons_of_mem _ hcv)

/-- Witness: the general membership characterization applied to two
concrete descriptors sharing only the keyword `b`. -/
theorem tags_are_keyword_intersection_witness :
    "b" ∈ getTagIntersection
      [⟨"p", "1", "a", "d", ["a", "b"]⟩, ⟨"p", "2", "a", "d", ["b", "c"]⟩] ↔
      ∀ cv ∈ [(⟨"p", "1", "a", "d", ["a", "b"]⟩ : ChartVersion),
              ⟨"p", "2", "a", "d", ["b", "c"]⟩], "b" ∈ cv.keywords :=
  tags_are_keyword_intersection.2.2.1
    [⟨"p", "1", "a", "d", ["a", "b"]⟩, ⟨"p", "2", "a", "d", ["b", "c"]⟩] "b" (by decide)

theorem alGet_mem {α : Type} {m : List (String × α)} {k : String} {v : α}
    (h : alGet m k = some v) : (k, v) ∈ m := by
  induction m with
  | nil => simp [alGet] at h
  | cons kv rest ih =>
    by_cases hk : kv.1 = k
    · simp only [alGet, hk, if_true, Option.some.injEq] at h
      subst h
      rw [← hk]
      exact List.mem_cons_self _ _
    · simp only [alGet, hk, if_false] at h
      exact List.mem_cons_of_mem _ (ih h)

theorem alSet_map_fst_of_present {α : Type} {m : List (String × α)} {k : String}
    (h : alGet m k ≠ none) (v : α) :
    (alSet m k v).map Prod.fst = m.map Prod.fst := by
  induction m with
  | nil => simp [alGet] at h
  | cons kv rest ih =>
    by_cases hk : kv.1 = k
    · simp [alSet, hk]
    · simp only [alGet, hk, if_false] at h
      simp [alSet, hk, ih h]

theorem alSet_mem_iff {α : Type} {m : List (String × α)} {k k' : String} {v y : α}
    (hnd : (m.map Prod.fst).Nodup) :
    (k', y) ∈ alSet m k v ↔ ((k' = k ∧ y = v) ∨ ((k', y) ∈ m ∧ k' ≠ k)) := by
  induction m with
  | nil => simp [alSet]
  | cons kv rest ih =>
    simp only [List.map_cons, List.nodup_cons] at hnd
    obtain ⟨hk1, hnd'⟩ := hnd
    by_cases hk : kv.1 = k
    · subst hk
      simp only [alSet, if_pos rfl]
      constructor
      · intro hmem
        rcases List.mem_cons.mp hmem with h | h
        · exact Or.inl ⟨(Prod.mk.injEq _ _ _ _ ▸ h).1, (Prod.mk.injEq _ _ _ _ ▸ h).2⟩
        · right
          refine ⟨List.mem_cons_of_mem _ h, ?_⟩
          intro he
          subst he
          have hmem2 : ((kv.1, y) : String × _).1 ∈ rest.map Prod.fst :=
            List.mem_map_of_mem Prod.fst h
          exact hk1 hmem2
      · rintro (⟨he, hv⟩ | ⟨hmem, hne⟩)
        · subst he; subst hv; exact List.mem_cons_self _ _
        · rcases List.mem_cons.mp hmem with h | h
          · exact absurd (congrArg Prod.fst h) hne
          · exact List.mem_cons_of_mem _ h
    · simp only [alSet, if_neg hk]
      constructor
      · intro hmem
        rcases List.mem_cons.mp hmem with h | h
        · subst h
          exact Or.inr ⟨List.mem_cons_self _ _, hk⟩
        · rcases (ih hnd').mp h with h1 | ⟨h1, h2⟩
          · exact Or.inl h1
          · exact Or.inr ⟨List.mem_cons_of_mem _ h1, h2⟩
      · rintro (⟨he, hv⟩ | ⟨hmem, hne⟩)
        · subst he; subst hv
          exact List.mem_cons_of_mem _ ((ih hnd').mpr (Or.inl ⟨rfl, rfl⟩))
        · rcases List.mem_cons.mp hmem with h | h
          · subst h; exact List.mem_cons_self _ _
          · exact List.mem_cons_of_mem _ ((ih hnd').mpr (Or.inr ⟨h, hne⟩))

theorem semverGT_true_iff {a b : SemVer} : semverGT a b = true ↔ b.key < a.key := by
  simp [semverGT]

theorem semverGT_false_le {a b : SemVer} (h : ¬ semverGT a b = true) : a.key ≤ b.key :=
  le_of_not_lt (by simpa [semverGT] using h)

theorem alGet_of_mem_nodup {α : Type} {m : List (String × α)} {k : String} {v : α}
    (hnd : (m.map Prod.fst).Nodup) (h : (k, v) ∈ m) : alGet m k = some v := by
  induction m with
  | nil => cases h
  | cons kv rest ih =>
    simp only [List.map_cons, List.nodup_cons] at hnd
    rcases List.mem_cons.mp h with h1 | h1
    · rw [← h1]
      simp [alGet]
    · by_cases hk : kv.1 = k
      · exfalso
        apply hnd.1
        rw [hk]
        have : ((k, v) : String × α).1 ∈ rest.map Prod.fst := List.mem_map_of_mem Prod.fst h1
        exact this
      · simp only [alGet, hk, if_false]
        exact ih hnd.2 h1

theorem dedupStep_inv {processed : List ChartVersion} {acc : List (String × ChartVersion)}
    (h : DedupInv processed acc) (cv : ChartVersion) :
    DedupInv (processed ++ [cv]) (dedupStep acc cv) := by
  obtain ⟨hnd, hent, hpres⟩ := h
  by_cases hav : cv.appVersion = ""
  · have hstep : dedupStep acc cv = acc := by simp [dedupStep, hav]
    rw [hstep]
    refine ⟨hnd, ?_, ?_⟩
    · intro av c hmem
      obtain ⟨h1, h2, h3, v, hv, hmax⟩ := hent av c hmem
      refine ⟨List.mem_append_left _ h1, h2, h3, v, hv, ?_⟩
      intro cv' hcv' heq v' hv'
      rcases List.mem_append.mp hcv' with hin | hin
      · exact hmax cv' hin heq v' hv'
      · rw [List.mem_singleton] at hin
        subst hin
        rw [hav] at heq
        exact absurd heq.symm h3
    · intro c hc hne hex
      rcases List.mem_append.mp hc with hin | hin
      · exact hpres c hin hne hex
      · rw [List.mem_singleton] at hin
        subst hin
        exact absurd hav hne
  · cases hp : semverParse cv.version with
    | none =>
      have hstep : dedupStep acc cv = acc := by simp [dedupStep, hav, hp]
      rw [hstep]
      refine ⟨hnd, ?_, ?_⟩
      · intro av c hmem
        obtain ⟨h1, h2, h3, v, hv, hmax⟩ := hent av c hmem
        refine ⟨List.mem_append_left _ h1, h2, h3, v, hv, ?_⟩
        intro cv' hcv' heq v' hv'
        rcases List.mem_append.mp hcv' with hin | hin
        · exact hmax cv' hin heq v' hv'
        · rw [List.mem_singleton] at hin
          subst hin
          rw [hp] at hv'
          cases hv'
      · intro c hc hne hex
        rcases List.mem_append.mp hc with hin | hin
        · exact hpres c hin hne hex
        · rw [List.mem_singleton] at hin
          subst hin
          obtain ⟨v, hv⟩ := hex
          rw [hp] at hv
          cases hv
    | some curV =>
      cases halg : alGet acc cv.appVersion with
      | none =>
        have hstep : dedupStep acc cv = acc ++ [(cv.appVersion, cv)] := by
          have : dedupStep acc cv = alSet acc cv.appVersion cv := by
            simp [dedupStep, hav, hp, halg]
          rw [this]
          exact alSet_of_not_mem _ _ _ halg
        rw [hstep]
        have happ : cv.appVersion ∉ acc.map Prod.fst := (alGet_eq_none_iff _ _).mp halg
        refine ⟨?_, ?_, ?_⟩
        · rw [List.map_append, List.nodup_append]
          refine ⟨hnd, List.nodup_singleton _, ?_⟩
          intro a ha hb
          simp only [List.map_cons, List.map_nil, List.mem_singleton] at hb
          subst hb
          exact happ ha
        · intro av c hmem
          rcases List.mem_append.mp hmem with hmemA | hmemA
          · obtain ⟨h1, h2, h3, v, hv, hmax⟩ := hent av c hmemA
            refine ⟨List.mem_append_left _ h1, h2, h3, v, hv, ?_⟩
            intro cv' hcv' heq v' hv'
            rcases List.mem_append.mp hcv' with hin | hin
            · exact hmax cv' hin heq v' hv'
            · rw [List.mem_singleton] at hin
              subst hin
              exfalso
              have hsome := alGet_isSome_of_mem hmemA
              rw [← heq] at hsome
              exact hsome halg
          · rw [List.mem_singleton, Prod.mk.injEq] at hmemA
            obtain ⟨hav2, hc⟩ := hmemA
            subst hc
            subst hav2
            refine ⟨List.mem_append_right _ (List.mem_singleton_self _), rfl, hav, curV, hp, ?_⟩
            intro cv' hcv' heq v' hv'
            rcases List.mem_append.mp hcv' with hin | hin
            · exfalso
              obtain ⟨c2, hc2⟩ := hpres cv' hin (by rw [heq]; exact hav) ⟨v', hv'⟩
              rw [heq] at hc2
              exact (alGet_isSome_of_mem hc2) halg
            · rw [List.mem_singleton] at hin
              subst hin
              have hveq : curV = v' := by
                rw [hp] at hv'
                injection hv'
              rw [← hveq]
        · intro c hc hne hex
          rcases List.mem_append.mp hc with hin | hin
          · obtain ⟨c2, hc2⟩ := hpres c hin hne hex
            exact ⟨c2, List.mem_append_left _ hc2⟩
          · rw [List.mem_singleton] at hin
            subst hin
            exact ⟨c, List.mem_append_right _ (List.mem_singleton_self _)⟩
      | some currentMax =>
        obtain ⟨hmem0, hkey0, hne0, maxV, hpmax, hmax0⟩ :=
          hent cv.appVersion currentMax (alGet_mem halg)
        by_cases hgt : semverGT curV maxV = true
        · have hstep : dedupStep acc cv = alSet acc cv.appVersion cv := by
            simp [dedupStep, hav, hp, halg, hpmax, hgt]
          rw [hstep]
          have hpresent : alGet acc cv.appVersion ≠ none := by
            rw [halg]; simp
          refine ⟨?_, ?_, ?_⟩
          · rw [alSet_map_fst_of_present hpresent]
            exact hnd
          · intro av c hmemS
            rcases (alSet_mem_iff hnd).mp hmemS with ⟨hkeq, hceq⟩ | ⟨hmem, hkne⟩
            · subst hkeq
              subst hceq
              refine ⟨List.mem_append_right _ (List.mem_singleton_self _), rfl, hav, curV, hp, ?_⟩
              intro cv' hcv' heq v' hv'
              rcases List.mem_append.mp hcv' with hin | hin
              · have hle := hmax0 cv' hin heq v' hv'
                have hlt : maxV.key < curV.key := semverGT_true_iff.mp hgt
                exact le_trans hle (le_of_lt hlt)
              · rw [List.mem_singleton] at hin
                subst hin
                have hveq : curV = v' := by
                  rw [hp] at hv'
                  injection hv'
                rw [← hveq]
            · obtain ⟨h1, h2, h3, v, hv, hmax⟩ := hent av c hmem
              refine ⟨List.mem_append_left _ h1, h2, h3, v, hv, ?_⟩
              intro cv' hcv' heq v' hv'
              rcases List.mem_append.mp hcv' with hin | hin
              · exact hmax cv' hin heq v' hv'
              · rw [List.mem_singleton] at hin
                subst hin
                exact absurd heq.symm hkne
          · intro c hc hne hex
            rcases List.mem_append.mp hc with hin | hin
            · obtain ⟨c2, hc2⟩ := hpres c hin hne hex
              by_cases hkc : c.appVersion = cv.appVersion
              · refine ⟨cv, ?_⟩
                rw [hkc]
                exact (alSet_mem_iff hnd).mpr (Or.inl ⟨rfl, rfl⟩)
              · exact ⟨c2, (alSet_mem_iff hnd).mpr (Or.inr ⟨hc2, hkc⟩)⟩
            · rw [List.mem_singleton] at hin
              subst hin
              exact ⟨c, (alSet_mem_iff hnd).mpr (Or.inl ⟨rfl, rfl⟩)⟩
        · have hstep : dedupStep acc cv = acc := by
            simp [dedupStep, hav, hp, halg, hpmax, hgt]
          rw [hstep]
          refine ⟨hnd, ?_, ?_⟩
          · intro av c hmem
            obtain ⟨h1, h2, h3, v, hv, hmax⟩ := hent av c hmem
            refine ⟨List.mem_append_left _ h1, h2, h3, v, hv, ?_⟩
            intro cv' hcv' heq v' hv'
            rcases List.mem_append.mp hcv' with hin | hin
            · exact hmax cv' hin heq v' hv'
            · rw [List.mem_singleton] at hin
              subst hin
              have hceq : c = currentMax := by
                have h4 := alGet_of_mem_nodup hnd hmem
                rw [← heq] at h4
                rw [halg] at h4
                injection h4 with h5
                exact h5.symm
              subst hceq
              have hveq : v = maxV := by
                rw [hpmax] at hv
                injection hv with h5
                exact h5.symm
              subst hveq
              have hveq2 : curV = v' := by
                rw [hp] at hv'
                injection hv'
              rw [← hveq2]
              exact semverGT_false_le hgt
          · intro c hc hne hex
            rcases List.mem_append.mp hc with hin | hin
            · exact hpres c hin hne hex
            · rw [List.mem_singleton] at hin
              subst hin
              exact ⟨currentMax, alGet_mem halg⟩

theorem dedup_foldl_inv (cvs : List ChartVersion) :
    ∀ (processed : List ChartVersion) (acc : List (String × ChartVersion)),
      DedupInv processed acc → DedupInv (processed ++ cvs) (cvs.foldl dedupStep acc) := by
  induction cvs with
  | nil =>
    intro processed acc h
    simpa using h
  | cons c rest ih =>
    intro processed acc h
    have h1 := dedupStep_inv h c
    have h2 := ih (processed ++ [c]) (dedupStep acc c) h1
    simpa [List.append_assoc] using h2

theorem dedupByAppVersion_inv (cvs : List ChartVersion) :
    DedupInv cvs (dedupByAppVersion cvs) := by
  have h0 : DedupInv [] [] := by
    refine ⟨List.nodup_nil, ?_, ?_⟩
    · intro av c hmem
      cases hmem
    · intro c hc
      cases hc
  have := dedup_foldl_inv cvs [] [] h0
  simpa [dedupByAppVersion] using this

/-- C2: `ListServices` emits exactly one plan per distinct non-empty
`appVersion`, built from the descriptor whose valid semantic version is
highest among descriptors sharing that `appVersion`; descriptors with
empty `appVersion` or an invalid version are skipped.  The retained map
has pairwise-distinct app versions, each retained descriptor is a valid
input descriptor maximal for its app version, every valid descriptor
with a nonempty app version is represented, and the concrete descriptor
set `{(pg,1.0.0,app 9.6), (pg,1.1.0,app 9.6), (pg,2.0.0,app 10.1)}`
yields exactly the two plans built from the `1.1.0` and `2.0.0`
descriptors. -/
theorem catalog_dedup_by_appVersion :
    (∀ cvs : List ChartVersion,
      ((dedupByAppVersion cvs).map Prod.fst).Nodup ∧
      (∀ av cv, (av, cv) ∈ dedupByAppVersion cvs →
        cv ∈ cvs ∧ cv.appVersion = av ∧ av ≠ "" ∧
        ∃ v, semverParse cv.version = some v ∧
          ∀ cv' ∈ cvs, cv'.appVersion = av →
            ∀ v', semverParse cv'.version = some v' → v'.key ≤ v.key) ∧
      (∀ cv ∈ cvs, cv.appVersion ≠ "" → (∃ v, semverParse cv.version = some v) →
        ∃ cv2, (cv.appVersion, cv2) ∈ dedupByAppVersion cvs)) ∧
    ListServices [] false
      [("pg", [⟨"pg", "1.0.0", "9.6", "postgres 1.0.0", []⟩,
               ⟨"pg", "1.1.0", "9.6", "postgres 1.1.0", []⟩,
               ⟨"pg", "2.0.0", "10.1", "postgres 2.0.0", []⟩])] =
      [{ id := "pg", name := "pg", description := "Helm Chart for pg", bindable := true,
         tags := [],
         plans := [⟨"pg-9-6", "9-6", "postgres 1.1.0", some true⟩,
                   ⟨"pg-10-1", "10-1", "postgres 2.0.0", some true⟩] }] := by
  refine ⟨fun cvs => dedupByAppVersion_inv cvs, by decide⟩

/-- Witness: the maximality statement applied to the concrete
three-descriptor example retains the `1.1.0` descriptor for app
version `9.6`. -/
theorem catalog_dedup_by_appVersion_witness :
    ((⟨"pg", "1.1.0", "9.6", "postgres 1.1.0", []⟩ : ChartVersion) ∈
      [(⟨"pg", "1.0.0", "9.6", "postgres 1.0.0", []⟩ : ChartVersion),
       ⟨"pg", "1.1.0", "9.6", "postgres 1.1.0", []⟩,
       ⟨"pg", "2.0.0", "10.1", "postgres 2.0.0", []⟩]) ∧
    (∃ cv2, ("9.6", cv2) ∈ dedupByAppVersion
      [⟨"pg", "1.0.0", "9.6", "postgres 1.0.0", []⟩,
       ⟨"pg", "1.1.0", "9.6", "postgres 1.1.0", []⟩,
       ⟨"pg", "2.0.0", "10.1", "postgres 2.0.0", []⟩]) :=
  ⟨((catalog_dedup_by_appVersion.1
      [⟨"pg", "1.0.0", "9.6", "postgres 1.0.0", []⟩,
       ⟨"pg", "1.1.0", "9.6", "postgres 1.1.0", []⟩,
       ⟨"pg", "2.0.0", "10.1", "postgres 2.0.0", []⟩]).2.1 "9.6"
      ⟨"pg", "1.1.0", "9.6", "postgres 1.1.0", []⟩ (by decide)).1,
   (catalog_dedup_by_appVersion.1
      [⟨"pg", "1.0.0", "9.6", "postgres 1.0.0", []⟩,
       ⟨"pg", "1.1.0", "9.6", "postgres 1.1.0", []⟩,
       ⟨"pg", "2.0.0", "10.1", "postgres 2.0.0", []⟩]).2.2
      ⟨"pg", "1.0.0", "9.6", "postgres 1.0.0", []⟩ (by decide) (by decide)
      ⟨⟨1, 0, 0, []⟩, by decide⟩⟩

theorem ListServices_mem {providerNames : List String} {flag : Bool}
    {charts : List (String × List ChartVersion)} {svc : Service}
    (h : svc ∈ ListServices providerNames flag charts) :
    ∃ e ∈ charts, svc = buildService e.1 e.2 := by
  have haux : ∀ (l : List (String × List ChartVersion)) (acc : List Service),
      svc ∈ l.foldl
        (fun services e =>
          if !(providerNames.contains e.1) && flag then services
          else if (buildService e.1 e.2).plans = [] then services
          else services ++ [buildService e.1 e.2]) acc →
      svc ∈ acc ∨ ∃ e ∈ l, svc = buildService e.1 e.2 := by
    intro l
    induction l with
    | nil =>
      intro acc hmem
      exact Or.inl hmem
    | cons e rest ih =>
      intro acc hmem
      rw [List.foldl_cons] at hmem
      rcases ih _ hmem with hin | ⟨e2, he2, hsvc⟩
      · by_cases h1 : (!(providerNames.contains e.1) && flag) = true
        · rw [if_pos h1] at hin
          exact Or.inl hin
        · rw [if_neg h1] at hin
          by_cases h2 : (buildService e.1 e.2).plans = []
          · rw [if_pos h2] at hin
            exact Or.inl hin
          · rw [if_neg h2] at hin
            rcases List.mem_append.mp hin with hin2 | hin2
            · exact Or.inl hin2
            · rw [List.mem_singleton] at hin2
              exact Or.inr ⟨e, List.mem_cons_self _ _, hin2⟩
      · exact Or.inr ⟨e2, List.mem_cons_of_mem _ he2, hsvc⟩
  rcases haux charts [] h with hin | hex
  · cases hin
  · exact hex

/-- C9: every plan emitted by `ListServices` comes from a retained
descriptor, with `id` the lower-cased `chart@appVersion` slug (every
character outside `[a-z0-9]` replaced by `-`), `name` the `appVersion`
under the same substitution (without lower-casing), `description`
copied from the descriptor and the plan marked free of charge. -/
theorem plan_fields {providerNames : List String} {flag : Bool}
    {charts : List (String × List ChartVersion)} {svc : Service} {plan : Plan}
    (hsvc : svc ∈ ListServices providerNames flag charts) (hplan : plan ∈ svc.plans) :
    ∃ cvs, (svc.id, cvs) ∈ charts ∧ ∃ av cv, (av, cv) ∈ dedupByAppVersion cvs ∧
      plan.id = String.mk (slug (goToLower (svc.id ++ "@" ++ cv.appVersion).data)) ∧
      plan.name = String.mk (slug cv.appVersion.data) ∧
      plan.description = cv.description ∧
      plan.free = some true := by
  obtain ⟨e, he, hsvceq⟩ := ListServices_mem hsvc
  subst hsvceq
  refine ⟨e.2, ?_, ?_⟩
  · show ((buildService e.1 e.2).id, e.2) ∈ charts
    have : (buildService e.1 e.2).id = e.1 := rfl
    rw [this]
    simpa using he
  · have hplans : (buildService e.1 e.2).plans =
        (dedupByAppVersion e.2).map (fun p => mkPlan e.1 p.2) := rfl
    rw [hplans] at hplan
    obtain ⟨p, hp, hpe⟩ := List.mem_map.mp hplan
    refine ⟨p.1, p.2, by simpa using hp, ?_, ?_, ?_, ?_⟩
    · rw [← hpe]; rfl
    · rw [← hpe]; rfl
    · rw [← hpe]; rfl
    · rw [← hpe]; rfl

/-- Witness: the plan emitted for a single `pg` descriptor with app
version `9.6` carries the slug `pg-9-6`, the name `9-6`, the
descriptor's description, and is free. -/
theorem plan_fields_witness :
    ∃ cvs, (("pg" : String), cvs) ∈
        [("pg", [(⟨"pg", "1.0.0", "9.6", "postgres 1.0.0", []⟩ : ChartVersion)])] ∧
      ∃ av cv, (av, cv) ∈ dedupByAppVersion cvs ∧
        (⟨"pg-9-6", "9-6", "postgres 1.0.0", some true⟩ : Plan).id =
          String.mk (slug (goToLower (("pg" ++ "@" ++ cv.appVersion : String)).data)) ∧
        (⟨"pg-9-6", "9-6", "postgres 1.0.0", some true⟩ : Plan).name =
          String.mk (slug cv.appVersion.data) ∧
        (⟨"pg-9-6", "9-6", "postgres 1.0.0", some true⟩ : Plan).description = cv.description ∧
        (⟨"pg-9-6", "9-6", "postgres 1.0.0", some true⟩ : Plan).free = some true :=
  @plan_fields [] false
    [("pg", [⟨"pg", "1.0.0", "9.6", "postgres 1.0.0", []⟩])]
    { id := "pg", name := "pg", description := "Helm Chart for pg",
      bindable := true, tags := [],
      plans := [⟨"pg-9-6", "9-6", "postgres 1.0.0", some true⟩] }
    ⟨"pg-9-6", "9-6", "postgres 1.0.0", some true⟩
    (by decide) (by decide)

theorem updateConfigMap_preserves_presence {st : ClusterState} {instanceID : String}
    {data : List (String × Option String)} {st2 : ClusterState}
    (h : updateConfigMap st instanceID data = .ok st2) (k : String)
    (hk : alGet st.configMaps k ≠ none) : alGet st2.configMaps k ≠ none := by
  unfold updateConfigMap at h
  rcases hg : alGet st.configMaps instanceID with _ | cfg
  · rw [hg] at h
    cases h
  · rw [hg] at h
    cases h
    by_cases hik : instanceID = k
    · subst hik
      simp [alGet_alSet_self]
    · simp only
      rw [alGet_alSet_ne _ _ _ _ hik]
      exact hk

theorem installRelease_configMaps (env : Env) (st : ClusterState)
    (chartName chartVersion ns : String) (pp : Params) :
    (installRelease env st chartName chartVersion ns pp).2.configMaps = st.configMaps := by
  unfold installRelease
  rcases hg : env.getChart chartName chartVersion with e | u
  · rfl
  · rcases ht : env.tiller with e | u2
    · rfl
    · rcases hi : env.install chartName chartVersion ns pp with e | r
      · rfl
      · rfl

theorem updateProvisioningState_presence (st : ClusterState)
    (releaseName instanceID ns : String) (k : String)
    (hk : alGet st.configMaps k ≠ none) :
    alGet (updateProvisioningState st releaseName instanceID ns).2.configMaps k ≠ none := by
  unfold updateProvisioningState
  dsimp only
  split
  · exact hk
  · next st2 heq => exact updateConfigMap_preserves_presence heq k hk

theorem Provision_creates_record (c : Client) (env : Env) (st : ClusterState)
    (instanceID serviceID planID ns : String) (ai : Bool) (pp : Params)
    (h : alGet st.configMaps instanceID = none) :
    alGet (Provision c env st instanceID serviceID planID ns ai pp).2.configMaps
      instanceID ≠ none := by
  have hself : ∀ cfg : InstanceConfig,
      alGet (st.configMaps ++ [(instanceID, cfg)]) instanceID ≠ none := by
    intro cfg
    rw [alGet_append_self _ _ _ h]
    simp
  simp only [Provision, h]
  cases ai
  · simp only [Bool.false_eq_true, if_false]
    split
    · next e st2 heq =>
      have := installRelease_configMaps env
        { st with configMaps := st.configMaps ++ [(instanceID,
            { labels := [(ServiceKey, serviceID), (PlanKey, planID)],
              data := [(ServiceKey, serviceID), (PlanKey, planID)],
              provisionParams := pp })] }
        serviceID (decodeChartVersion serviceID planID) ns pp
      rw [heq] at this
      simp only at this
      rw [this]
      exact hself _
    · next resp st2 heq =>
      have hcm := installRelease_configMaps env
        { st with configMaps := st.configMaps ++ [(instanceID,
            { labels := [(ServiceKey, serviceID), (PlanKey, planID)],
              data := [(ServiceKey, serviceID), (PlanKey, planID)],
              provisionParams := pp })] }
        serviceID (decodeChartVersion serviceID planID) ns pp
      rw [heq] at hcm
      simp only at hcm
      have hpres2 : alGet st2.configMaps instanceID ≠ none := by
        rw [hcm]
        exact hself _
      split
      · next e st3 heq2 =>
        have := updateProvisioningState_presence st2 resp.releaseName instanceID
          resp.releaseNs instanceID hpres2
        rw [heq2] at this
        exact this
      · next st3 heq2 =>
        have := updateProvisioningState_presence st2 resp.releaseName instanceID
          resp.releaseNs instanceID hpres2
        rw [heq2] at this
        exact this
  · simp only [if_true]
    split
    · next e heq => exact hself _
    · next st2 heq => exact updateConfigMap_preserves_presence heq instanceID (hself _)

theorem Provision_of_present (c : Client) (env : Env) (st : ClusterState)
    (instanceID serviceID planID ns : String) (ai : Bool) (pp : Params)
    (cfg : InstanceConfig) (h : alGet st.configMaps instanceID = some cfg) :
    Provision c env st instanceID serviceID planID ns ai pp =
      (.error (.http 409 (some ConcurrencyErrorMessage) (some ConcurrencyErrorDescription)),
       st) := by
  simp [Provision, h]

/-- C1: provisioning an instance ID whose record already exists fails
with the 409/ConcurrencyError condition and leaves the cluster state
(in particular the install trace) untouched; from a state without the
record, one provision call creates the record and a second call on the
resulting state, with any arguments, receives the same Conflict error
without further state change — so of two serialized racing calls
exactly one creates the record. -/
theorem Provision_conflict_exclusive (c : Client) (env env' : Env) (st : ClusterState)
    (instanceID serviceID planID ns serviceID' planID' ns' : String)
    (ai ai' : Bool) (pp pp' : Params) :
    (alGet st.configMaps instanceID ≠ none →
      Provision c env st instanceID serviceID planID ns ai pp =
        (.error (.http 409 (some ConcurrencyErrorMessage)
          (some ConcurrencyErrorDescription)), st)) ∧
    (alGet st.configMaps instanceID = none →
      alGet (Provision c env st instanceID serviceID planID ns ai pp).2.configMaps
          instanceID ≠ none ∧
      Provision c env' (Provision c env st instanceID serviceID planID ns ai pp).2
          instanceID serviceID' planID' ns' ai' pp' =
        (.error (.http 409 (some ConcurrencyErrorMessage)
          (some ConcurrencyErrorDescription)),
         (Provision c env st instanceID serviceID planID ns ai pp).2)) := by
  constructor
  · intro h
    obtain ⟨cfg, hcfg⟩ := Option.ne_none_iff_exists'.mp h
    exact Provision_of_present c env st instanceID serviceID planID ns ai pp cfg hcfg
  · intro h
    have hpres := Provision_creates_record c env st instanceID serviceID planID ns ai pp h
    obtain ⟨cfg, hcfg⟩ := Option.ne_none_iff_exists'.mp hpres
    exact ⟨hpres, Provision_of_present c env'
      (Provision c env st instanceID serviceID planID ns ai pp).2
      instanceID serviceID' planID' ns' ai' pp' cfg hcfg⟩

/-- Witness: from an empty cluster, provisioning instance `i` creates
its record and a second provision of `i` returns the Conflict error. -/
theorem Provision_conflict_exclusive_witness :
    alGet ((Provision ⟨"minibroker", [], false⟩
        ⟨fun _ _ => .ok (), .ok (), fun _ _ _ _ => .ok ⟨"rel", "ns", [], []⟩,
         fun _ => .ok (), "abc"⟩
        ⟨[], [], [], [], []⟩ "i" "svc" "svc-1-0-0" "ns" false []).2.configMaps)
      "i" ≠ none ∧
    Provision ⟨"minibroker", [], false⟩
        ⟨fun _ _ => .ok (), .ok (), fun _ _ _ _ => .ok ⟨"rel", "ns", [], []⟩,
         fun _ => .ok (), "abc"⟩
        (Provision ⟨"minibroker", [], false⟩
          ⟨fun _ _ => .ok (), .ok (), fun _ _ _ _ => .ok ⟨"rel", "ns", [], []⟩,
           fun _ => .ok (), "abc"⟩
          ⟨[], [], [], [], []⟩ "i" "svc" "svc-1-0-0" "ns" false []).2
        "i" "svc" "svc-1-0-0" "ns" false [] =
      (.error (.http 409 (some ConcurrencyErrorMessage)
        (some ConcurrencyErrorDescription)),
       (Provision ⟨"minibroker", [], false⟩
          ⟨fun _ _ => .ok (), .ok (), fun _ _ _ _ => .ok ⟨"rel", "ns", [], []⟩,
           fun _ => .ok (), "abc"⟩
          ⟨[], [], [], [], []⟩ "i" "svc" "svc-1-0-0" "ns" false []).2) :=
  (Provision_conflict_exclusive ⟨"minibroker", [], false⟩
      ⟨fun _ _ => .ok (), .ok (), fun _ _ _ _ => .ok ⟨"rel", "ns", [], []⟩,
       fun _ => .ok (), "abc"⟩
      ⟨fun _ _ => .ok (), .ok (), fun _ _ _ _ => .ok ⟨"rel", "ns", [], []⟩,
       fun _ => .ok (), "abc"⟩
      ⟨[], [], [], [], []⟩ "i" "svc" "svc-1-0-0" "ns" "svc" "svc-1-0-0" "ns"
      false false [] []).2 rfl

/-- C4: polling an existing instance record with an operation key that
differs from the stored one fails with the 400/ConcurrencyError
condition; polling with the stored key or with no key returns the
stored operation state and description. -/
theorem lastOperation_token_check (c : Client) (st : ClusterState) (instanceID : String)
    (cfg : InstanceConfig) (h : alGet st.configMaps instanceID = some cfg) :
    (∀ key, cfg.dataGet OperationNameKey ≠ key →
      LastOperationState c st instanceID (some key) =
        .error (.http 400 (some ConcurrencyErrorMessage)
          (some ConcurrencyErrorDescription))) ∧
    (∀ key, cfg.dataGet OperationNameKey = key →
      LastOperationState c st instanceID (some key) =
        .ok ⟨cfg.dataGet OperationStateKey, some (cfg.dataGet OperationDescriptionKey)⟩) ∧
    LastOperationState c st instanceID none =
      .ok ⟨cfg.dataGet OperationStateKey, some (cfg.dataGet OperationDescriptionKey)⟩ := by
  refine ⟨?_, ?_, ?_⟩
  · intro key hne
    simp [LastOperationState, h, hne]
  · intro key heq
    simp [LastOperationState, h, heq]
  · simp [LastOperationState, h]

/-- Witness: with a stored token `provision-abc`, polling with
`provision-zzz` yields the ConcurrencyError condition while polling
with the stored token or no token yields the stored state. -/
theorem lastOperation_token_check_witness :
    LastOperationState ⟨"minibroker", [], false⟩
        ⟨[("i", ⟨[], [(OperationNameKey, "provision-abc"),
                     (OperationStateKey, "in progress"),
                     (OperationDescriptionKey, "working")], []⟩)], [], [], [], []⟩
        "i" (some "provision-zzz") =
      .error (.http 400 (some ConcurrencyErrorMessage)
        (some ConcurrencyErrorDescription)) ∧
    LastOperationState ⟨"minibroker", [], false⟩
        ⟨[("i", ⟨[], [(OperationNameKey, "provision-abc"),
                     (OperationStateKey, "in progress"),
                     (OperationDescriptionKey, "working")], []⟩)], [], [], [], []⟩
        "i" (some "provision-abc") = .ok ⟨"in progress", some "working"⟩ ∧
    LastOperationState ⟨"minibroker", [], false⟩
        ⟨[("i", ⟨[], [(OperationNameKey, "provision-abc"),
                     (OperationStateKey, "in progress"),
                     (OperationDescriptionKey, "working")], []⟩)], [], [], [], []⟩
        "i" none = .ok ⟨"in progress", some "working"⟩ :=
  ⟨(lastOperation_token_check ⟨"minibroker", [], false⟩
      ⟨[("i", ⟨[], [(OperationNameKey, "provision-abc"),
                    (OperationStateKey, "in progress"),
                    (OperationDescriptionKey, "working")], []⟩)], [], [], [], []⟩
      "i" ⟨[], [(OperationNameKey, "provision-abc"), (OperationStateKey, "in progress"),
                (OperationDescriptionKey, "working")], []⟩ rfl).1
      "provision-zzz" (by decide),
   (lastOperation_token_check ⟨"minibroker", [], false⟩
      ⟨[("i", ⟨[], [(OperationNameKey, "provision-abc"),
                    (OperationStateKey, "in progress"),
                    (OperationDescriptionKey, "working")], []⟩)], [], [], [], []⟩
      "i" ⟨[], [(OperationNameKey, "provision-abc"), (OperationStateKey, "in progress"),
                (OperationDescriptionKey, "working")], []⟩ rfl).2.1
      "provision-abc" (by decide),
   (lastOperation_token_check ⟨"minibroker", [], false⟩
      ⟨[("i", ⟨[], [(OperationNameKey, "provision-abc"),
                    (OperationStateKey, "in progress"),
                    (OperationDescriptionKey, "working")], []⟩)], [], [], [], []⟩
      "i" ⟨[], [(OperationNameKey, "provision-abc"), (OperationStateKey, "in progress"),
                (OperationDescriptionKey, "working")], []⟩ rfl).2.2⟩

/-- C5: deprovisioning and polling an instance ID without a record both
return the Gone (410) condition, which is a plain status-code error
distinct from NotFound (404) and from any wrapped upstream error. -/
theorem gone_on_missing_record (c : Client) (env : Env) (st : ClusterState)
    (instanceID : String) (ai : Bool) (token : Option String)
    (h : alGet st.configMaps instanceID = none) :
    Deprovision c env st instanceID ai = (.error (.http 410 none none), st) ∧
    LastOperationState c st instanceID token = .error (.http 410 none none) ∧
    (∀ msg desc, (OSBError.http 410 none none) ≠ .http 404 msg desc) ∧
    (∀ m, (OSBError.http 410 none none) ≠ .wrapped m) := by
  refine ⟨?_, ?_, ?_, ?_⟩
  · simp [Deprovision, h]
  · simp [LastOperationState, h]
  · intro msg desc hcontra
    cases hcontra
  · intro m hcontra
    cases hcontra

/-- Witness: deprovisioning and polling the unknown instance `ghost`
on an empty cluster return the Gone condition. -/
theorem gone_on_missing_record_witness :
    Deprovision ⟨"minibroker", [], false⟩
        ⟨fun _ _ => .ok (), .ok (), fun _ _ _ _ => .ok ⟨"rel", "ns", [], []⟩,
         fun _ => .ok (), "abc"⟩
        ⟨[], [], [], [], []⟩ "ghost" false =
      (.error (.http 410 none none), ⟨[], [], [], [], []⟩) ∧
    LastOperationState ⟨"minibroker", [], false⟩ ⟨[], [], [], [], []⟩ "ghost" none =
      .error (.http 410 none none) :=
  ⟨(gone_on_missing_record ⟨"minibroker", [], false⟩
      ⟨fun _ _ => .ok (), .ok (), fun _ _ _ _ => .ok ⟨"rel", "ns", [], []⟩,
       fun _ => .ok (), "abc"⟩
      ⟨[], [], [], [], []⟩ "ghost" false none rfl).1,
   (gone_on_missing_record ⟨"minibroker", [], false⟩
      ⟨fun _ _ => .ok (), .ok (), fun _ _ _ _ => .ok ⟨"rel", "ns", [], []⟩,
       fun _ => .ok (), "abc"⟩
      ⟨[], [], [], [], []⟩ "ghost" false none rfl).2.1⟩

/-- C6: binding an existing instance whose release namespace holds no
instance-labeled services, or no instance-labeled secrets, fails with
the plain NotFound (404) condition and returns no credentials. -/
theorem bind_notfound_on_missing_resources (c : Client) (st : ClusterState)
    (instanceID serviceID : String) (bindParams : Params) (cfg : InstanceConfig)
    (h : alGet st.configMaps instanceID = some cfg)
    (hempty : labeledServices st (cfg.dataGet ReleaseNamespaceKey) instanceID = [] ∨
      labeledSecrets st (cfg.dataGet ReleaseNamespaceKey) instanceID = []) :
    Bind c st instanceID serviceID bindParams = (.error (.http 404 none none), st) := by
  by_cases hsvc : labeledServices st (cfg.dataGet ReleaseNamespaceKey) instanceID = []
  · simp [Bind, h, hsvc]
  · have hsec : labeledSecrets st (cfg.dataGet ReleaseNamespaceKey) instanceID = [] := by
      rcases hempty with h1 | h1
      · exact absurd h1 hsvc
      · exact h1
    simp [Bind, h, hsvc, hsec]

/-- Witness: binding instance `i` whose record exists but whose release
produced no labeled resources returns the 404 condition. -/
theorem bind_notfound_on_missing_resources_witness :
    Bind ⟨"minibroker", [], false⟩ ⟨[("i", ⟨[], [], []⟩)], [], [], [], []⟩ "i" "svc" [] =
      (.error (.http 404 none none), ⟨[("i", ⟨[], [], []⟩)], [], [], [], []⟩) :=
  bind_notfound_on_missing_resources ⟨"minibroker", [], false⟩
    ⟨[("i", ⟨[], [], []⟩)], [], [], [], []⟩ "i" "svc" [] ⟨[], [], []⟩ rfl (Or.inl rfl)

theorem foldl_alSet_get (src : Params) :
    ∀ (dst : Params) (k : String), (src.map Prod.fst).Nodup →
      alGet (src.foldl (fun a kv => alSet a kv.1 kv.2) dst) k =
        (alGet src k <|> alGet dst k) := by
  induction src with
  | nil =>
    intro dst k _
    simp [alGet]
  | cons kv rest ih =>
    intro dst k hnd
    simp only [List.map_cons, List.nodup_cons] at hnd
    rw [List.foldl_cons, ih (alSet dst kv.1 kv.2) k hnd.2]
    by_cases hk : kv.1 = k
    · subst hk
      have hnone : alGet rest kv.1 = none := by
        rw [alGet_eq_none_iff]
        exact hnd.1
      rw [hnone]
      simp [alGet, alGet_alSet_self]
    · rw [alGet_alSet_ne _ _ _ _ hk]
      simp [alGet, hk]

/-- C7: the parameter map `Bind` merges for the provider is the stored
provision parameters overridden by the caller's bind parameters: a key
present in both maps resolves to the bind-time value, and the concrete
merge of stored `\x7ba:1\x7d` with bind `\x7ba:2,b:3\x7d` is exactly
`\x7ba:2,b:3\x7d`. -/
theorem bind_param_precedence :
    (∀ (p b : Params) (k : String), (p.map Prod.fst).Nodup → (b.map Prod.fst).Nodup →
      alGet (mergeParams p b) k = (alGet b k <|> alGet p k)) ∧
    mergeParams [("a", .num 1)] [("a", .num 2), ("b", .num 3)] =
      [("a", .num 2), ("b", .num 3)] := by
  constructor
  · intro p b k hp hb
    show alGet (b.foldl (fun a kv => alSet a kv.1 kv.2)
      (p.foldl (fun a kv => alSet a kv.1 kv.2) [])) k = _
    rw [foldl_alSet_get b _ k hb, foldl_alSet_get p [] k hp]
    cases alGet b k <;> cases alGet p k <;> simp [alGet]
  · decide

/-- Witness: the lookup law applied to the concrete maps: the merged
map resolves `a` to the bind-time value `2`. -/
theorem bind_param_precedence_witness :
    alGet (mergeParams [("a", ParamValue.num 1)]
      [("a", ParamValue.num 2), ("b", ParamValue.num 3)]) "a" =
      (alGet [("a", ParamValue.num 2), ("b", ParamValue.num 3)] "a" <|>
       alGet [("a", ParamValue.num 1)] "a") :=
  bind_param_precedence.1 [("a", ParamValue.num 1)]
    [("a", ParamValue.num 2), ("b", ParamValue.num 3)] "a" (by decide) (by decide)

/-- C10: `Bind` never mutates cluster state: whatever the outcome, the
resulting state (instance records, labeled resources, install and
deletion traces) is the input state. -/
theorem Bind_no_mutation (c : Client) (st : ClusterState) (instanceID serviceID : String)
    (bindParams : Params) : (Bind c st instanceID serviceID bindParams).2 = st := by
  unfold Bind
  split
  · rfl
  · dsimp only
    split
    · rfl
    · split
      · rfl
      · split
        · rfl
        · split
          · rfl
          · rfl

end Minibroker
